import Mathlib

/-!
Verification development for the depfinder repository (process_trace.py and
strace_helper.py), as a shallow embedding in Lean.

Conventions of the embedding:
* Python `pathlib.Path` values are modelled by `PPath`: an absoluteness flag
  plus the list of non-empty, non-"." components.  Python's path
  normalisation (collapsing repeated slashes and "." segments) happens in
  `PPath.parse`; equality of `PPath` values models `PurePath.__eq__`.
  (The special treatment of a leading "//" is not modelled.)
* Python sets of tuples are modelled by `Finset` over the tuple type.
* Methods that can raise (assertions, TypeError, StopIteration, KeyError)
  return `Option`; `none` is "an exception was raised".
* Mutable object graphs (`ProcessTrace.from_events` builds records that are
  referenced both from the `running` map and from parents' `children`
  lists) are modelled by an explicit store: a list of `Node`s addressed by
  index, exactly as a heap of Python objects.
-/

/-! Kernel-computable replacements for the `String` library functions the
embedding needs (`split`, `startswith`, `strip`, `'/'.join`): the core
`String` versions use byte-position loops that the kernel cannot unfold. -/

/-- `s.split(sep)` for a single-character separator. -/
def splitOnChar (sep : Char) : List Char → List (List Char)
  | [] => [[]]
  | c :: rest =>
    let r := splitOnChar sep rest
    if c == sep then [] :: r
    else
      match r with
      | [] => [[c]]
      | h :: t => (c :: h) :: t

/-- `sep.join(parts)` for `sep = "/"`. -/
def joinParts : List String → String
  | [] => ""
  | [p] => p
  | p :: rest => p ++ "/" ++ joinParts rest

/-- `s.startswith(p)`. -/
def strStartsWith (s p : String) : Bool := p.data.isPrefixOf s.data

/-- `s.strip()` (ASCII whitespace). -/
def pyStrip (s : String) : String :=
  String.mk (((s.data.dropWhile Char.isWhitespace).reverse.dropWhile Char.isWhitespace).reverse)

/-- Everything after the first occurrence of `sub` (empty if absent):
`s.partition(sub)[2]`. -/
def dropThroughSub (sub : List Char) : List Char → List Char
  | [] => if sub.isPrefixOf [] then ([] : List Char).drop sub.length else []
  | c :: rest =>
    if sub.isPrefixOf (c :: rest) then (c :: rest).drop sub.length
    else dropThroughSub sub rest

deriving instance DecidableEq for Except

/-- Model of a `pathlib.PurePosixPath`: absoluteness plus components. -/
structure PPath where
  absolute : Bool
  parts : List String
deriving DecidableEq, Repr

/-- `pathlib` parsing of a string: absolute iff it starts with `/`; empty
and `.` components are dropped. -/
def PPath.parse (s : String) : PPath :=
  { absolute := match s.data with | '/' :: _ => true | _ => false
    parts := ((splitOnChar '/' s.data).map String.mk).filter (fun c => c ≠ "" && c ≠ ".") }

/-- `base / p` on paths: an absolute right operand wins, otherwise the
components are concatenated. -/
def PPath.join (base p : PPath) : PPath :=
  if p.absolute then p else { absolute := base.absolute, parts := base.parts ++ p.parts }

/-- `str(path)` for a `PurePosixPath`. -/
def PPath.render (p : PPath) : String :=
  if p.absolute then "/" ++ joinParts p.parts
  else if p.parts = [] then "." else joinParts p.parts

/-- An argument passed to `ProcessTrace.read`/`write`/`check`: the trace
events carry raw strings while `collapsed()` passes `Path` objects. -/
inductive PathArg where
  | str (s : String)
  | path (p : PPath)
deriving DecidableEq, Repr

/-- `str(path)` as computed inside `ProcessTrace.read` and friends. -/
def PathArg.asStr : PathArg → String
  | .str s => s
  | .path p => p.render

/-- The `Path` value of the argument (used by `self.cwd / path`). -/
def PathArg.asPath : PathArg → PPath
  | .str s => PPath.parse s
  | .path p => p

/-- The normalized trace events emitted by `StraceOutputParser` and
consumed by `ProcessTrace` (pid is carried separately). -/
inductive Ev where
  | exec (executable : String) (argv : List String) (env : List (String × String))
  | exit (code : Int)
  | read (path : String)
  | write (path : String)
  | check (path : String) (present : Bool)
  | fork (cpid : Nat)
  | chdir (path : String)
deriving DecidableEq, Repr

abbrev RWEntry := String × PPath
abbrev CheckEntry := String × PPath × Bool

/-- The attributes of one `ProcessTrace` object (children are kept
separately, since they are references into the object graph). -/
structure PTData where
  pid : Option Nat
  ppid : Option Nat
  cwd : PPath
  executable : Option PPath
  argv : Option (List String)
  env : Option (List (String × String))
  exit_code : Option Int
  paths_read : Finset RWEntry
  paths_written : Finset RWEntry
  paths_checked : Finset CheckEntry
deriving DecidableEq

/-- `ProcessTrace.__init__` for the calls made by `from_events` and
`collapsed` (cwd always given; the `paths_*` keyword arguments are never
passed there).  The executable, when given, is joined against the cwd. -/
def PTData.init (pid ppid : Option Nat) (cwd : PPath) (executable : Option PPath)
    (argv : Option (List String)) (env : Option (List (String × String)))
    (exit_code : Option Int) : PTData :=
  { pid := pid
    ppid := ppid
    cwd := cwd
    executable := executable.map (fun e => cwd.join e)
    argv := argv
    env := env
    exit_code := exit_code
    paths_read := ∅
    paths_written := ∅
    paths_checked := ∅ }

/-- `ProcessTrace.read`: add `(str(path), cwd / path)` to `paths_read`. -/
def PTData.read (r : PTData) (p : PathArg) : PTData :=
  { r with paths_read := insert (p.asStr, r.cwd.join p.asPath) r.paths_read }

/-- `ProcessTrace.write`: add `(str(path), cwd / path)` to `paths_written`. -/
def PTData.write (r : PTData) (p : PathArg) : PTData :=
  { r with paths_written := insert (p.asStr, r.cwd.join p.asPath) r.paths_written }

/-- `ProcessTrace.check`: add `(str(path), cwd / path, present)` to
`paths_checked`. -/
def PTData.check (r : PTData) (p : PathArg) (present : Bool) : PTData :=
  { r with paths_checked := insert (p.asStr, r.cwd.join p.asPath, present) r.paths_checked }

/-- `ProcessTrace.chdir`: `self.cwd = Path(path)` — the previous cwd is
discarded, whether or not `path` is absolute. -/
def PTData.chdir (r : PTData) (path : String) : PTData :=
  { r with cwd := PPath.parse path }

/-- `ProcessTrace.exec`: asserts the exec fields are unset, then sets them;
the executable is joined against the current cwd. -/
def PTData.exec (r : PTData) (executable : String) (argv : List String)
    (env : List (String × String)) : Option PTData :=
  if r.executable = none ∧ r.argv = none ∧ r.env = none then
    some { r with
      executable := some (r.cwd.join (PPath.parse executable))
      argv := some argv
      env := some env }
  else none

/-- `ProcessTrace.exit`: asserts `exit_code` is unset, then sets it. -/
def PTData.exitEv (r : PTData) (code : Int) : Option PTData :=
  if r.exit_code = none then some { r with exit_code := some code } else none

/-- `getattr(p, event)(*args)` for a single record: the per-record effect of
each trace event (`fork` is a no-op on the record itself). -/
def PTData.handle (r : PTData) : Ev → Option PTData
  | .exec e a v => r.exec e a v
  | .exit c => r.exitEv c
  | .read p => some (r.read (.str p))
  | .write p => some (r.write (.str p))
  | .check p b => some (r.check (.str p) b)
  | .fork _ => some r
  | .chdir p => some (r.chdir p)

/-- A `ProcessTrace` object graph flattened to a tree (sufficient for
`collapsed`, which only traverses the tree). -/
inductive PT where
  | mk (data : PTData) (children : List PT)

def PT.data : PT → PTData
  | .mk d _ => d

def PT.children : PT → List PT
  | .mk _ c => c

mutual

/-- The `copy_activities` closure inside `ProcessTrace.collapsed`: fold the
subtree's path sets into `ret`, and `ret.read(p.executable)` for every
visited node.  When a node's executable is `None`, `ret.cwd / None` raises
`TypeError`, modelled as `none`. -/
def copyActivities : PT → PTData → Option PTData
  | .mk d cs, ret =>
    let ret1 := { ret with
      paths_read := ret.paths_read ∪ d.paths_read
      paths_written := ret.paths_written ∪ d.paths_written
      paths_checked := ret.paths_checked ∪ d.paths_checked }
    match d.executable with
    | none => none
    | some e => copyActivitiesList cs (ret1.read (.path e))

def copyActivitiesList : List PT → PTData → Option PTData
  | [], ret => some ret
  | c :: rest, ret =>
    match copyActivities c ret with
    | none => none
    | some r => copyActivitiesList rest r

end

/-- `ProcessTrace.collapsed`: copy the identity attributes into a fresh
record, then fold in the whole subtree's file activities. -/
def PT.collapsed (p : PT) : Option PT :=
  let ret0 := PTData.init p.data.pid p.data.ppid p.data.cwd p.data.executable
    p.data.argv p.data.env p.data.exit_code
  match copyActivities p ret0 with
  | none => none
  | some d => some (PT.mk d [])

mutual

/-- Union of `f` over all nodes of the subtree (the node itself included). -/
def subAgg (f : PTData → Finset RWEntry) : PT → Finset RWEntry
  | .mk d cs => f d ∪ subAggList f cs

def subAggList (f : PTData → Finset RWEntry) : List PT → Finset RWEntry
  | [] => ∅
  | c :: rest => subAgg f c ∪ subAggList f rest

end

mutual

/-- Union of `g` over all nodes of the subtree, for check entries. -/
def subAggC (g : PTData → Finset CheckEntry) : PT → Finset CheckEntry
  | .mk d cs => g d ∪ subAggCList g cs

def subAggCList (g : PTData → Finset CheckEntry) : List PT → Finset CheckEntry
  | [] => ∅
  | c :: rest => subAggC g c ∪ subAggCList g rest

end

/-- Union of `paths_read` over the subtree. -/
def subtreeReads (t : PT) : Finset RWEntry := subAgg (fun d => d.paths_read) t

/-- Union of `paths_written` over the subtree. -/
def subtreeWrites (t : PT) : Finset RWEntry := subAgg (fun d => d.paths_written) t

/-- Union of `paths_checked` over the subtree. -/
def subtreeChecks (t : PT) : Finset CheckEntry := subAggC (fun d => d.paths_checked) t

/-- The `paths_read` entry that `ret.read(p.executable)` produces for a node
whose executable is `e`, with `cwd` the collapsing record's cwd. -/
def exeEntrySet (cwd : PPath) (d : PTData) : Finset RWEntry :=
  match d.executable with
  | none => ∅
  | some e => {(e.render, cwd.join e)}

/-- Executable entries of every node of the subtree, the root included
(this is what the code inserts). -/
def allExeEntries (cwd : PPath) (t : PT) : Finset RWEntry :=
  subAgg (exeEntrySet cwd) t

/-- Modelled from the claim's words: executable entries of the proper
descendants only, the root excluded. -/
def properDescExeEntries (cwd : PPath) (t : PT) : Finset RWEntry :=
  subAggList (exeEntrySet cwd) t.children

mutual

/-- Every node of the subtree has its executable set (so that `collapsed`
does not raise). -/
def allExeB : PT → Bool
  | .mk d cs => d.executable.isSome && allExeBList cs

def allExeBList : List PT → Bool
  | [] => true
  | c :: rest => allExeB c && allExeBList rest

end

/-! ### The store model of `ProcessTrace.from_events` -/

/-- One heap cell: a record's attributes plus the addresses of its
children. -/
structure Node where
  data : PTData
  children : List Nat
deriving DecidableEq

/-- Write through address `a` of the store. -/
def listUpd : List Node → Nat → (Node → Node) → List Node
  | [], _, _ => []
  | x :: xs, 0, f => f x :: xs
  | x :: xs, k + 1, f => x :: listUpd xs k f

/-- Association-list lookup (models a Python dict with unique keys). -/
def lookupA {α : Type} : List (Nat × α) → Nat → Option α
  | [], _ => none
  | (k, v) :: rest, key => if k = key then some v else lookupA rest key

/-- `pending.setdefault(pid, []).append(event)`. -/
def pendAdd : List (Nat × List Ev) → Nat → Ev → List (Nat × List Ev)
  | [], key, e => [(key, [e])]
  | (k, evs) :: rest, key, e =>
    if k = key then (k, evs ++ [e]) :: rest else (k, evs) :: pendAdd rest key e

/-- `del d[key]` on an association list. -/
def delA {α : Type} (l : List (Nat × α)) (key : Nat) : List (Nat × α) :=
  l.filter (fun kv => kv.1 != key)

/-- The loop state of `ProcessTrace.from_events`: the heap of records, the
`running` map (pid to address) and the `pending` buffers. -/
structure FEState where
  store : List Node
  running : List (Nat × Nat)
  pending : List (Nat × List Ev)
deriving DecidableEq

/-- One iteration of the `from_events` loop on event `(pid, e)`:
buffer events of unknown pids; otherwise dispatch to the record, and give
`fork`/`exit` their bookkeeping (child creation with the parent's cwd,
appending to the parent's children, draining the child's pending events in
order; removal from `running`). -/
def feStep (st : FEState) (pe : Nat × Ev) : Option FEState :=
  match lookupA st.running pe.1 with
  | none => some { st with pending := pendAdd st.pending pe.1 pe.2 }
  | some a =>
    match st.store[a]? with
    | none => none
    | some node =>
      match node.data.handle pe.2 with
      | none => none
      | some d =>
        let store := listUpd st.store a (fun n => { n with data := d })
        match pe.2 with
        | .fork cpid =>
          if (lookupA st.running cpid).isSome then none
          else
            let caddr := store.length
            let c0 := PTData.init (some cpid) (some pe.1) d.cwd none none none none
            let cdrained :=
              match lookupA st.pending cpid with
              | none => some c0
              | some evs => evs.foldlM PTData.handle c0
            match cdrained with
            | none => none
            | some cd =>
              some { store := listUpd store a
                       (fun n => { n with children := n.children ++ [caddr] }) ++ [⟨cd, []⟩]
                     running := st.running ++ [(cpid, caddr)]
                     pending := delA st.pending cpid }
        | .exit _ => some { st with store := store, running := delA st.running pe.1 }
        | _ => some { st with store := store }

/-- `ProcessTrace.from_events`: pull the first event (an empty stream makes
`next` raise `StopIteration` before any record is constructed), build the
root, loop over the rest, and assert both maps drained.  The returned store
has the root at address 0. -/
def fromEvents (events : List (Nat × Ev)) (cwd : PPath) : Option (List Node) :=
  match events with
  | [] => none
  | (pid, e) :: rest =>
    let root0 := PTData.init (some pid) none cwd none none none none
    match root0.handle e with
    | none => none
    | some d =>
      match rest.foldlM feStep ⟨[⟨d, []⟩], [(pid, 0)], []⟩ with
      | none => none
      | some st => if st.running = [] ∧ st.pending = [] then some st.store else none

/-- Store-level `copy_activities`: all writes go through the address of the
fresh `ret` record; the subtree is only read, recursing depth-first into
the children.  The fuel bounds the recursion depth (Python relies on the
heap being acyclic); it is consumed once per level, so any fuel at least
the subtree height is enough. -/
def copyActS : Nat → List Node → Nat → Nat → Option (List Node)
  | 0, _, _, _ => none
  | fuel + 1, store, retAddr, a =>
    match store[a]? with
    | none => none
    | some pn =>
      let store1 := listUpd store retAddr (fun rn => { rn with data := { rn.data with
        paths_read := rn.data.paths_read ∪ pn.data.paths_read
        paths_written := rn.data.paths_written ∪ pn.data.paths_written
        paths_checked := rn.data.paths_checked ∪ pn.data.paths_checked } })
      match pn.data.executable with
      | none => none
      | some e =>
        let store2 := listUpd store1 retAddr (fun rn => { rn with data := rn.data.read (.path e) })
        pn.children.foldlM (fun st c => copyActS fuel st retAddr c) store2

/-- Store-level `ProcessTrace.collapsed`: allocate the fresh record at the
end of the store, run `copy_activities` on it, return the new store and the
fresh record's address. -/
def collapsedS (fuel : Nat) (store : List Node) (a : Nat) : Option (List Node × Nat) :=
  match store[a]? with
  | none => none
  | some n =>
    let ret0 : Node := ⟨PTData.init n.data.pid n.data.ppid n.data.cwd n.data.executable
      n.data.argv n.data.env n.data.exit_code, []⟩
    match copyActS fuel (store ++ [ret0]) store.length a with
    | none => none
    | some store2 => some (store2, store.length)

/-! ### StraceOutputParser: line classification

The five line patterns of `StraceOutputParser._LineParsers` are regular
expressions whose matching is deterministic except for the greedy `(.*)`
capturing the argument list of a complete syscall; that one is implemented
by `splitArgs`, which picks the longest prefix whose remainder matches the
continuation `\) += (-?\d+|\?)(?:<.*?>)?(.*)$` — exactly the greedy
semantics.  `\w` is modelled as ASCII alphanumerics plus underscore, `\d`
and `str.strip()` as their ASCII versions (strace output is ASCII), and
lines are assumed to carry no newline (the `$` of the patterns matches just
before a trailing newline, leaving it outside every group). -/

/-- A `\w` character. -/
def isWordC (c : Char) : Bool := c.isAlphanum || c == '_'

/-- Greedy `p+`: the maximal non-empty prefix satisfying `p`. -/
def takeWhile1 (p : Char → Bool) (l : List Char) : Option (List Char × List Char) :=
  match l.takeWhile p with
  | [] => none
  | t => some (t, l.drop t.length)

/-- Match a literal. -/
def dropLit (lit : List Char) (l : List Char) : Option (List Char) :=
  if lit.isPrefixOf l then some (l.drop lit.length) else none

/-- Match a single literal character. -/
def expectChar (c : Char) : List Char → Option (List Char)
  | [] => none
  | x :: xs => if x = c then some xs else none

/-- `int(digits)` in base 10. -/
def natOfDigits (l : List Char) : Nat :=
  l.foldl (fun n c => 10 * n + (c.toNat - '0'.toNat)) 0

/-- The return-value token `(-?\d+|\?)`; `?` becomes `none` (as in
`_parse_syscall_full`, which maps `'?'` to `None`). -/
def parseRetTok (l : List Char) : Option (Option Int × List Char) :=
  match l with
  | '-' :: rest =>
    match takeWhile1 Char.isDigit rest with
    | none => none
    | some (ds, l2) => some (some (-(natOfDigits ds : Int)), l2)
  | '?' :: rest => some (none, rest)
  | _ =>
    match takeWhile1 Char.isDigit l with
    | none => none
    | some (ds, l2) => some (some ((natOfDigits ds : Int)), l2)

/-- The lazy optional annotation `(?:<.*?>)?`: consume through the first
`>` when the text starts with `<` and a `>` exists; otherwise skip. -/
def skipAnnot (l : List Char) : List Char :=
  match l with
  | '<' :: rest =>
    match rest.dropWhile (fun c => c != '>') with
    | [] => l
    | _ :: after => after
  | _ => l

/-- The continuation after the argument group:
`\) += (-?\d+|\?)(?:<.*?>)?(.*)$`. -/
def matchCont (l : List Char) : Option (Option Int × List Char) := do
  let l1 ← expectChar ')' l
  let (_, l2) ← takeWhile1 (fun c => c == ' ') l1
  let l3 ← expectChar '=' l2
  let l4 ← expectChar ' ' l3
  let (r, l5) ← parseRetTok l4
  some (r, skipAnnot l5)

/-- Greedy split of the text after `NAME(`: the longest prefix (the `args`
group) whose remainder matches `matchCont`. -/
def splitArgs : List Char → Option (List Char × Option Int × List Char)
  | [] => (matchCont []).map (fun rt => ([], rt))
  | c :: rest =>
    match splitArgs rest with
    | some (a, rt) => some (c :: a, rt)
    | none => (matchCont (c :: rest)).map (fun rt => ([], rt))

/-- Pattern 1, complete syscall:
`^(\d+) +(\w+)\((.*)\) += (-?\d+|\?)(?:<.*?>)?(.*)$`, with the pid and
return-value conversions of `_parse_syscall_full` already applied. -/
def matchFull (l : List Char) : Option (Nat × String × String × Option Int × String) := do
  let (dg, l1) ← takeWhile1 Char.isDigit l
  let (_, l2) ← takeWhile1 (fun c => c == ' ') l1
  let (w, l3) ← takeWhile1 isWordC l2
  let l4 ← expectChar '(' l3
  let (a, rt) ← splitArgs l4
  some (natOfDigits dg, String.mk w, String.mk a, rt.1, String.mk rt.2)

def unfinishedSuffix : List Char := " <unfinished ...>".data

/-- Pattern 2, unfinished syscall: `^(\d+) +(\w+)\((.*) <unfinished \.\.\.>$`. -/
def matchUnfinished (l : List Char) : Option (Nat × String × String) := do
  let (dg, l1) ← takeWhile1 Char.isDigit l
  let (_, l2) ← takeWhile1 (fun c => c == ' ') l1
  let (w, l3) ← takeWhile1 isWordC l2
  let m ← expectChar '(' l3
  if unfinishedSuffix.isSuffixOf m then
    some (natOfDigits dg, String.mk w, String.mk (m.take (m.length - unfinishedSuffix.length)))
  else none

/-- Pattern 3, resumed syscall: `^(\d+) +<\.\.\. (\w+) resumed> (.*)$`. -/
def matchResumed (l : List Char) : Option (Nat × String × String) := do
  let (dg, l1) ← takeWhile1 Char.isDigit l
  let (_, l2) ← takeWhile1 (fun c => c == ' ') l1
  let l3 ← dropLit "<... ".data l2
  let (w, l4) ← takeWhile1 isWordC l3
  let l5 ← dropLit " resumed> ".data l4
  some (natOfDigits dg, String.mk w, String.mk l5)

def signalSuffix : List Char := "\x7d ---".data

/-- Pattern 4, signal: `^(\d+) +--- (\w+) {(.*)} ---$`. -/
def matchSignal (l : List Char) : Option (Nat × String × String) := do
  let (dg, l1) ← takeWhile1 Char.isDigit l
  let (_, l2) ← takeWhile1 (fun c => c == ' ') l1
  let l3 ← dropLit "--- ".data l2
  let (w, l4) ← takeWhile1 isWordC l3
  let l5 ← dropLit " \x7b".data l4
  if signalSuffix.isSuffixOf l5 then
    some (natOfDigits dg, String.mk w, String.mk (l5.take (l5.length - signalSuffix.length)))
  else none

/-- Pattern 5, exit: `^(\d+) +\+\+\+ exited with (\d+) \+\+\+$`. -/
def matchExit (l : List Char) : Option (Nat × Nat) := do
  let (dg, l1) ← takeWhile1 Char.isDigit l
  let (_, l2) ← takeWhile1 (fun c => c == ' ') l1
  let l3 ← dropLit "+++ exited with ".data l2
  let (d2, l4) ← takeWhile1 Char.isDigit l3
  let l5 ← dropLit " +++".data l4
  if l5 = [] then some (natOfDigits dg, natOfDigits d2) else none

/-- A classified line; first matching pattern wins, anything else is the
"unrecognized, logged and skipped" case. -/
inductive Classified where
  | full (pid : Nat) (func : String) (args : String) (ret : Option Int) (tail : String)
  | unfinished (pid : Nat) (func : String) (partArgs : String)
  | resumed (pid : Nat) (func : String) (rest : String)
  | signal (pid : Nat) (name : String) (body : String)
  | exited (pid : Nat) (code : Nat)
  | unrecognized
deriving DecidableEq, Repr

/-- The ordered pattern cascade of `StraceOutputParser.__call__`. -/
def classify (l : List Char) : Classified :=
  match matchFull l with
  | some (pid, w, a, r, t) => .full pid w a r t
  | none =>
    match matchUnfinished l with
    | some (pid, w, pa) => .unfinished pid w pa
    | none =>
      match matchResumed l with
      | some (pid, w, r) => .resumed pid w r
      | none =>
        match matchSignal l with
        | some (pid, w, b) => .signal pid w b
        | none =>
          match matchExit l with
          | some (pid, c) => .exited pid c
          | none => .unrecognized

/-! ### StraceOutputParser: syscall argument scanner

Errors carry the Python exception class, because
`_handle_syscall_readlink` catches `ValueError` (from `int(...)` and from
`_parse_string`) but not `AssertionError`/`NameError`/`IndexError`. -/

inductive PErr where
  | val
  | other
deriving DecidableEq, Repr

/-- `sub = s[:s.index(',')]`, remainder keeps the comma. -/
def splitComma (l : List Char) : List Char × List Char :=
  (l.takeWhile (fun c => c != ','), l.dropWhile (fun c => c != ','))

/-- Value of one digit character in bases up to 16. -/
def charVal (c : Char) : Option Nat :=
  if c.isDigit then some (c.toNat - '0'.toNat)
  else if 'a' ≤ c ∧ c ≤ 'f' then some (c.toNat - 'a'.toNat + 10)
  else if 'A' ≤ c ∧ c ≤ 'F' then some (c.toNat - 'A'.toNat + 10)
  else none

def digitsValGo (base : Nat) : Nat → List Char → Except PErr Nat
  | acc, [] => .ok acc
  | acc, c :: rest =>
    match charVal c with
    | some v => if v < base then digitsValGo base (base * acc + v) rest else .error .val
    | none => .error .val

/-- `int(cs, base)`; the empty string raises `ValueError`. -/
def digitsVal (base : Nat) (cs : List Char) : Except PErr Nat :=
  if cs = [] then .error .val else digitsValGo base 0 cs

/-- `int(cs, 10)` with an optional leading minus. -/
def decInt (cs : List Char) : Except PErr Int :=
  match cs with
  | '-' :: rest => (digitsVal 10 rest).map (fun n => -(n : Int))
  | _ => (digitsVal 10 cs).map (fun n => (n : Int))

/-- `StraceOutputParser._parse_number`. -/
def parseNumber (s : List Char) : Except PErr (Int × List Char) :=
  let (sub, rest) := splitComma s
  if sub = "NULL".data ∨ sub = "0".data then .ok (0, rest)
  else if "0x".data.isPrefixOf sub then (digitsVal 16 (sub.drop 2)).map (fun n => ((n : Int), rest))
  else if "0".data.isPrefixOf sub then (digitsVal 8 (sub.drop 1)).map (fun n => ((n : Int), rest))
  else (decInt sub).map (fun n => (n, rest))

/-- The body loop of `_parse_string` over `s[1:]`: collect characters,
`\` escaping the next one, stopping at an unescaped `"`; returns the
collected characters and the final loop index (Python's `i`, which the
caller uses as `s[i + 2:]` whether or not the quote was found). -/
def strBodyAux : List Char → Nat → Bool → List Char → (List Char × Nat)
  | [], i, _, acc => (acc, i)
  | [c], i, esc, acc =>
    if esc then (acc ++ [c], i)
    else if c == '\\' then (acc, i)
    else if c == '"' then (acc, i)
    else (acc ++ [c], i)
  | c :: rest, i, esc, acc =>
    if esc then strBodyAux rest (i + 1) false (acc ++ [c])
    else if c == '"' then (acc, i)
    else if c == '\\' then strBodyAux rest (i + 1) true acc
    else strBodyAux rest (i + 1) false (acc ++ [c])

/-- `StraceOutputParser._parse_string`: `NULL` yields the absent string; a
non-quote start raises `ValueError`; a lone `"` leaves Python's `i`
unbound (`NameError`, hence `.other`). -/
def parseCStr (s : List Char) : Except PErr (Option String × List Char) :=
  if "NULL".data.isPrefixOf s then .ok (none, s.drop 4)
  else
    match s with
    | '"' :: [] => .error .other
    | '"' :: rest =>
      let (acc, i) := strBodyAux rest 0 false []
      .ok (some (String.mk acc), s.drop (i + 2))
    | _ => .error .val

/-- `StraceOutputParser._parse_bitwise_or`. -/
def parseBitwiseOr (s : List Char) : List String × List Char :=
  let (sub, rest) := splitComma s
  ((splitOnChar '|' sub).map String.mk, rest)

def parseArrayAux : Nat → List Char → List (Option String) → Except PErr (List (Option String) × List Char)
  | 0, _, _ => .error .other
  | _, [], _ => .error .other
  | fuel + 1, c :: rest, acc =>
    if c == ']' then .ok (acc, rest)
    else
      match parseCStr (c :: rest) with
      | .error e => .error e
      | .ok (item, s2) =>
        let s3 := if ", ".data.isPrefixOf s2 then s2.drop 2 else s2
        parseArrayAux fuel s3 (acc ++ [item])

/-- `StraceOutputParser._parse_array`; indexing past the end is an
`IndexError` (`.other`); the fuel dominates the loop, which consumes at
least one character per iteration. -/
def parseArray (s : List Char) : Except PErr (List (Option String) × List Char) :=
  match s with
  | '[' :: rest => parseArrayAux (s.length + 1) rest []
  | _ => .error .other

/-- One decoded syscall argument, as yielded by `_parse_args`. -/
inductive Arg where
  | int (n : Int)
  | str (s : Option String)
  | list (l : List (Option String))
  | flags (l : List String)
  | fd (p : String)
  | omitted
deriving DecidableEq, Repr

def parseArgsCons (a : Arg) : Except PErr (List Arg × List Char) → Except PErr (List Arg × List Char)
  | .error e => .error e
  | .ok (items, rest) => .ok (a :: items, rest)

/-- The annotated file descriptor case of the `f` token:
`f, args = args.split('>', 1)`, `n, f = f.split('<', 1)`,
`_parse_number(n)`, yield the path between `<` and `>`. -/
def parseFdAnnot (args : List Char) : Except PErr (String × List Char) :=
  let before := args.takeWhile (fun c => c != '>')
  if before.length = args.length then .error .val
  else
    let after := args.drop (before.length + 1)
    let npart := before.takeWhile (fun c => c != '<')
    if npart.length = before.length then .error .val
    else
      let fpart := before.drop (npart.length + 1)
      match parseNumber npart with
      | .error e => .error e
      | .ok _ => .ok (String.mk fpart, after)

/-- `StraceOutputParser._parse_args`, driven by the spec string. -/
def parseArgsGo : List Char → Bool → List Char → Except PErr (List Arg × List Char)
  | [], _, args => .ok ([], args)
  | t :: ts, opt, args =>
    if t == '*' then parseArgsGo ts true args
    else if opt && args.isEmpty then
      if t == ',' then parseArgsGo ts opt args
      else parseArgsCons Arg.omitted (parseArgsGo ts opt args)
    else if t == ',' then
      if ", ".data.isPrefixOf args then parseArgsGo ts opt (args.drop 2)
      else .error .other
    else if t == 'n' then
      match parseNumber args with
      | .error e => .error e
      | .ok (n, args2) => parseArgsCons (Arg.int n) (parseArgsGo ts opt args2)
    else if t == 'f' then
      if "AT_FDCWD".data.isPrefixOf args then
        parseArgsCons (Arg.fd ".") (parseArgsGo ts opt (args.drop 8))
      else
        match parseFdAnnot args with
        | .error e => .error e
        | .ok (p, args2) => parseArgsCons (Arg.fd p) (parseArgsGo ts opt args2)
    else if t == 's' then
      match parseCStr args with
      | .error e => .error e
      | .ok (v, args2) => parseArgsCons (Arg.str v) (parseArgsGo ts opt args2)
    else if t == '|' then
      let (v, args2) := parseBitwiseOr args
      parseArgsCons (Arg.flags v) (parseArgsGo ts opt args2)
    else if t == 'a' then
      match parseArray args with
      | .error e => .error e
      | .ok (v, args2) => parseArgsCons (Arg.list v) (parseArgsGo ts opt args2)
    else .error .other

/-- `_parse_args` plus its final `assert args == ''`. -/
def parseArgs (spec args : String) : Except PErr (List Arg) :=
  match parseArgsGo spec.data false args.data with
  | .error e => .error e
  | .ok (items, rest) => if rest = [] then .ok items else .error .other

/-! ### StraceOutputParser: syscall handlers

Each handler returns `none` where the Python handler raises (any
exception becomes `StraceParseError` in `__call__`).  `NULL` paths, which
the Python code would pass through as `None` and which crash every
consumer, are modelled as parse failures. -/

def handleAccess (pid : Nat) (_func args : String) (ret : Option Int) (rest : String) :
    Option (List (Nat × Ev)) :=
  match parseArgs "s,|" args with
  | .ok [Arg.str (some path), Arg.flags mode] =>
    if mode.all (fun m => m == "F_OK" || m == "R_OK" || m == "W_OK" || m == "X_OK") then
      if ret = some 0 then some [(pid, .check path true)]
      else if ret = some (-1) ∧ strStartsWith rest "ENOENT " then some [(pid, .check path false)]
      else none
    else none
  | _ => none

def handleChdir (pid : Nat) (_func args : String) (ret : Option Int) (rest : String) :
    Option (List (Nat × Ev)) :=
  match parseArgs "s" args with
  | .ok [Arg.str (some path)] =>
    if ret = some 0 ∧ rest = "" then some [(pid, .chdir path)] else none
  | _ => none

def handleClone (pid : Nat) (_func args : String) (ret : Option Int) (rest : String) :
    Option (List (Nat × Ev)) :=
  let flags := (parseBitwiseOr (dropThroughSub "flags=".data args.data)).1
  if flags.toFinset = ({"CLONE_CHILD_CLEARTID", "CLONE_CHILD_SETTID", "SIGCHLD"} : Finset String) then
    match ret with
    | some r => if r > 0 ∧ rest = "" then some [(pid, .fork r.toNat)] else none
    | none => none
  else none

/-- `s.split('=', 1)` into an environment pair; no `=` raises. -/
def envSplit (s : String) : Option (String × String) :=
  let pre := s.data.takeWhile (fun c => c != '=')
  if pre.length = s.data.length then none
  else some (String.mk pre, String.mk (s.data.drop (pre.length + 1)))

def envList (l : List (Option String)) : Option (List (String × String)) :=
  l.mapM (fun os => os.bind envSplit)

def allSome (l : List (Option String)) : Option (List String) :=
  l.mapM id

def handleExecve (pid : Nat) (func args : String) (ret : Option Int) (rest : String) :
    Option (List (Nat × Ev)) :=
  match parseArgs "s,a,a" args with
  | .ok [Arg.str (some exe), Arg.list argvL, Arg.list envL] =>
    match envList envL, allSome argvL with
    | some env, some argv =>
      if func = "execve" then
        match ret with
        | some 0 => if rest = "" then some [(pid, .exec exe argv env)] else none
        | some r =>
          if r = -1 then
            if strStartsWith rest "ENOENT " then some [(pid, .check exe false)]
            else if strStartsWith rest "EACCES " then some [(pid, .check exe true)]
            else none
          else none
        | none => none
      else none
    | _, _ => none
  | _ => none

def handleGetxattr (pid : Nat) (_func args : String) (ret : Option Int) (rest : String) :
    Option (List (Nat × Ev)) :=
  match parseArgs "s,s,n,n" args with
  | .ok [Arg.str (some path), Arg.str _, Arg.int _, Arg.int _] =>
    if ret = some (-1) ∧ strStartsWith rest "ENODATA " then some [(pid, .check path true)]
    else none
  | _ => none

/-- `StraceOutputParser._handle_syscall_open` (also bound to `openat`):
decode the flag set, then branch on the return value and `O_RDONLY` /
`O_WRONLY` / `O_RDWR` membership. -/
def handleOpen (pid : Nat) (func args : String) (ret : Option Int) (rest : String) :
    Option (List (Nat × Ev)) :=
  let parsed : Option (String × List String) :=
    if func = "openat" then
      match parseArgs "f,s,|*,n" args with
      | .ok [Arg.fd base, Arg.str (some p), Arg.flags fl, _] =>
        if base = "." then some (p, fl) else none
      | _ => none
    else
      match parseArgs "s,|*,n" args with
      | .ok [Arg.str (some p), Arg.flags fl, _] => some (p, fl)
      | _ => none
  match parsed with
  | none => none
  | some (path, oflag) =>
    if ret = some (-1) then
      if oflag.contains "O_RDONLY" ∧ strStartsWith rest "ENOENT " then
        some [(pid, .check path false)]
      else none
    else if oflag.contains "O_RDONLY" then
      match ret with
      | some r => if r > 0 ∧ rest = "" then some [(pid, .read path)] else none
      | none => none
    else if oflag.contains "O_WRONLY" ∨ oflag.contains "O_RDWR" then
      match ret with
      | some r => if r > 0 ∧ rest = "" then some [(pid, .write path)] else none
      | none => none
    else none

def handleReadlink (pid : Nat) (_func args : String) (ret : Option Int) (rest : String) :
    Option (List (Nat × Ev)) :=
  match parseArgs "s,s,n" args with
  | .ok items =>
    match items with
    | [Arg.str (some path), Arg.str _, Arg.int _] =>
      match ret with
      | some r => if r > 0 ∧ rest = "" then some [(pid, .read path)] else none
      | none => none
    | _ => none
  | .error .val =>
    match parseArgs "s,n,n" args with
    | .ok [Arg.str (some path), Arg.int _, Arg.int _] =>
      if ret = some (-1) then
        if strStartsWith rest "ENOENT " then some [(pid, .check path false)]
        else if strStartsWith rest "EINVAL " then some [(pid, .check path true)]
        else none
      else none
    | _ => none
  | .error .other => none

def handleRename (pid : Nat) (_func args : String) (ret : Option Int) (rest : String) :
    Option (List (Nat × Ev)) :=
  match parseArgs "s,s" args with
  | .ok [Arg.str (some pfrom), Arg.str (some pto)] =>
    if ret = some 0 ∧ rest = "" then some [(pid, .write pfrom), (pid, .write pto)] else none
  | _ => none

def handleStat (pid : Nat) (_func args : String) (ret : Option Int) (rest : String) :
    Option (List (Nat × Ev)) :=
  match parseArgs "s,n" args with
  | .ok [Arg.str (some path), Arg.int _] =>
    match ret with
    | some 0 => if rest = "" then some [(pid, .check path true)] else none
    | some r =>
      if r = -1 ∧ strStartsWith rest "ENOENT " then some [(pid, .check path false)] else none
    | none => none
  | _ => none

def handleUnlink (pid : Nat) (_func args : String) (ret : Option Int) (rest : String) :
    Option (List (Nat × Ev)) :=
  match parseArgs "s" args with
  | .ok [Arg.str (some path)] =>
    if ret = some 0 ∧ rest = "" then some [(pid, .write path)] else none
  | _ => none

def handleUtimensat (pid : Nat) (_func args : String) (_ret : Option Int) (_rest : String) :
    Option (List (Nat × Ev)) :=
  match parseArgs "f,s,n,n" args with
  | .ok [Arg.fd base, Arg.str pathOpt, Arg.int times, Arg.int flag] =>
    if pathOpt = none ∧ times = 0 ∧ flag = 0 then some [(pid, .write base)] else none
  | _ => none

def handleVfork (pid : Nat) (_func args : String) (ret : Option Int) (rest : String) :
    Option (List (Nat × Ev)) :=
  if args = "" then
    match ret with
    | some r => if r > 0 ∧ rest = "" then some [(pid, .fork r.toNat)] else none
    | none => none
  else none

/-- `getattr(self, '_handle_syscall_' + func)` dispatch; unknown names
raise `AttributeError`, hence `none`. -/
def handleSyscall (pid : Nat) (func args : String) (ret : Option Int) (rest : String) :
    Option (List (Nat × Ev)) :=
  if func = "access" then handleAccess pid func args ret rest
  else if func = "chdir" then handleChdir pid func args ret rest
  else if func = "clone" then handleClone pid func args ret rest
  else if func = "execve" then handleExecve pid func args ret rest
  else if func = "getxattr" then handleGetxattr pid func args ret rest
  else if func = "open" ∨ func = "openat" then handleOpen pid func args ret rest
  else if func = "readlink" then handleReadlink pid func args ret rest
  else if func = "rename" then handleRename pid func args ret rest
  else if func = "stat" ∨ func = "lstat" then handleStat pid func args ret rest
  else if func = "unlink" then handleUnlink pid func args ret rest
  else if func = "utimensat" then handleUtimensat pid func args ret rest
  else if func = "vfork" then handleVfork pid func args ret rest
  else if func = "arch_prctl" ∨ func = "exit_group" ∨ func = "getcwd" ∨ func = "wait4" then some []
  else none

/-- The per-PID stitching state: `self.pending`, pid to
`(syscall name, partial args)`. -/
structure ParserState where
  pending : List (Nat × (String × String))
deriving DecidableEq

/-- The action of one classified line on the parser state, yielding the
events; `none` is `StraceParseError` on that line.  A resumed line
reconstructs `'{} {}({}{}'.format(pid, func, partial_args, rest)` and
re-matches it against the complete-syscall pattern. -/
def processClassified (st : ParserState) : Classified → Option (ParserState × List (Nat × Ev))
  | .full pid func args ret tail =>
    match handleSyscall pid func args ret (pyStrip tail) with
    | none => none
    | some evs => some (st, evs)
  | .unfinished pid func partArgs =>
    match lookupA st.pending pid with
    | some _ => none
    | none => some (⟨st.pending ++ [(pid, (func, partArgs))]⟩, [])
  | .resumed pid func rest =>
    match lookupA st.pending pid with
    | none => none
    | some (storedFunc, pa) =>
      if func = storedFunc then
        let st2 : ParserState := ⟨delA st.pending pid⟩
        let line := Nat.repr pid ++ " " ++ func ++ "(" ++ pa ++ rest
        match matchFull line.data with
        | none => none
        | some (pid2, func2, args2, ret2, tail2) =>
          match handleSyscall pid2 func2 args2 ret2 (pyStrip tail2) with
          | none => none
          | some evs => some (st2, evs)
      else none
  | .signal _ name _ =>
    if name = "SIGCHLD" then some (st, []) else none
  | .exited pid code => some (st, [(pid, .exit (code : Int))])
  | .unrecognized => some (st, [])

/-- `StraceOutputParser.__call__` over a list of lines (each line without
its trailing newline). -/
def parseLines : ParserState → List (List Char) → Option (ParserState × List (Nat × Ev))
  | st, [] => some (st, [])
  | st, l :: rest =>
    match processClassified st (classify l) with
    | none => none
    | some (st2, evs) =>
      match parseLines st2 rest with
      | none => none
      | some (st3, evs2) => some (st3, evs ++ evs2)

/-! ### Concrete records used to instantiate the theorems -/

def cwdW : PPath := ⟨true, ["work"]⟩

def exeLS : PPath := ⟨true, ["bin", "ls"]⟩

/-- A completed leaf record with no file activity (e.g. a statically
linked binary that made no file syscalls). -/
def dLeaf : PTData :=
  { pid := some 1, ppid := none, cwd := cwdW, executable := some exeLS,
    argv := some ["ls"], env := some [], exit_code := some 0,
    paths_read := ∅, paths_written := ∅, paths_checked := ∅ }

def tLeaf : PT := PT.mk dLeaf []

def dChild : PTData :=
  { pid := some 2, ppid := some 1, cwd := cwdW,
    executable := some (PPath.mk true ["bin", "cat"]),
    argv := none, env := none, exit_code := none,
    paths_read := {("x", PPath.mk true ["work", "x"])},
    paths_written := ∅, paths_checked := ∅ }

def tTree : PT := PT.mk dLeaf [PT.mk dChild []]

def ndRoot : Node := ⟨{ dLeaf with executable := none }, []⟩

def stC3 : FEState := ⟨[ndRoot], [(1, 0)], []⟩

def cdC3 : PTData :=
  { pid := some 2, ppid := some 1, cwd := cwdW, executable := none,
    argv := none, env := none, exit_code := none,
    paths_read := {("x", PPath.mk true ["work", "x"])},
    paths_written := ∅, paths_checked := ∅ }

/-! ### Theorems -/

/-- Claim C9: `ProcessTrace.from_events` on an empty event stream fails
(the `next(events)` raises `StopIteration`) before any record is
constructed; a forest is only produced from a non-empty stream. -/
theorem C9_theorem : ∀ cwd : PPath, fromEvents [] cwd = none := fun _ => rfl

/-- Claim C2 (code evaluation at the failing input): `ProcessTrace.chdir`
sets `cwd = Path(path)` without resolving against the previous cwd, so a
relative `chdir("sub")` on a record with cwd `/work` leaves a relative
cwd `sub` (the claim expects `/work/sub`), and a following `read("f")`
records the relative pair `("f", sub/f)` instead of
`("f", /work/sub/f)`; an absolute `chdir` does overwrite as claimed. -/
theorem C2_theorem :
    (PTData.chdir dLeaf "sub").cwd = PPath.mk false ["sub"] ∧
    PPath.mk false ["sub"] ≠ dLeaf.cwd.join (PPath.parse "sub") ∧
    ((PTData.chdir dLeaf "sub").read (.str "f")).paths_read =
      {("f", PPath.mk false ["sub", "f"])} ∧
    (PTData.chdir dLeaf "/abs").cwd = PPath.mk true ["abs"] := by decide

/-- Claim C7 counterexample: a well-formed signal line whose name is not
`SIGCHLD` is not tolerated — the `assert signal == 'SIGCHLD'` makes the
parser raise `StraceParseError` instead of skipping the line. -/
theorem C7_counterexample :
    classify "710 --- SIGTERM \x7bsi_signo=SIGTERM\x7d ---".data =
      Classified.signal 710 "SIGTERM" "si_signo=SIGTERM" ∧
    parseLines ⟨[]⟩ ["710 --- SIGTERM \x7bsi_signo=SIGTERM\x7d ---".data] = none := by
  decide

/-- Claim C7 (amended): a signal line whose name is not `SIGCHLD` is
fatal (`StraceParseError`); a `SIGCHLD` signal line emits no event and
leaves the parser state unchanged. -/
theorem C7_theorem (st : ParserState) (pid : Nat) (name body : String)
    (h : name ≠ "SIGCHLD") :
    processClassified st (.signal pid name body) = none ∧
    processClassified st (.signal pid "SIGCHLD" body) = some (st, []) := by
  constructor
  · simp [processClassified, h]
  · simp [processClassified]

theorem C7_witness :
    (("SIGTERM" : String) ≠ "SIGCHLD") ∧
    (processClassified ⟨[]⟩ (.signal 710 "SIGTERM" "x") = none ∧
      processClassified ⟨[]⟩ (.signal 710 "SIGCHLD" "x") = some (⟨[]⟩, [])) :=
  ⟨by decide, C7_theorem ⟨[]⟩ 710 "SIGTERM" "x" (by decide)⟩

/-- Claim C8: a resumed line whose syscall name differs from the pending
unfinished syscall's stored name fails the `assert func == stored_func`,
so the parser raises `StraceParseError` instead of stitching. -/
theorem C8_theorem (st : ParserState) (pid : Nat) (func rest sf pa : String)
    (hpend : lookupA st.pending pid = some (sf, pa)) (hne : func ≠ sf) :
    processClassified st (.resumed pid func rest) = none := by
  simp [processClassified, hpend, hne]

theorem C8_witness :
    lookupA (ParserState.mk [(3, ("open", "\"/a\""))]).pending 3 = some ("open", "\"/a\"") ∧
    (("close" : String) ≠ "open") ∧
    processClassified (ParserState.mk [(3, ("open", "\"/a\""))])
      (.resumed 3 "close" "x) = 0") = none :=
  ⟨by decide, by decide,
    C8_theorem (ParserState.mk [(3, ("open", "\"/a\""))]) 3 "close" "x) = 0" "open" "\"/a\""
      (by decide) (by decide)⟩

/-- Claim C5: the `open`/`openat` handler — success (`ret > 0`, empty
tail) yields `read(path)` when `O_RDONLY` is among the decoded flags,
else `write(path)` when `O_WRONLY` or `O_RDWR` is; failure (`ret = -1`)
with an `ENOENT` tail yields `check(path, false)` and requires
`O_RDONLY` among the flags (any other flag set on failure is fatal). -/
theorem C5_theorem (pid : Nat) (args argsAt path pathAt : String)
    (fl flAt : List String) (m mAt : Arg) (r : Int) (rest : String)
    (hp : parseArgs "s,|*,n" args = .ok [Arg.str (some path), Arg.flags fl, m])
    (hpAt : parseArgs "f,s,|*,n" argsAt =
      .ok [Arg.fd ".", Arg.str (some pathAt), Arg.flags flAt, mAt]) :
    (r > 0 → "O_RDONLY" ∈ fl →
      handleOpen pid "open" args (some r) "" = some [(pid, .read path)]) ∧
    (r > 0 → "O_RDONLY" ∉ fl → ("O_WRONLY" ∈ fl ∨ "O_RDWR" ∈ fl) →
      handleOpen pid "open" args (some r) "" = some [(pid, .write path)]) ∧
    ("O_RDONLY" ∈ fl → strStartsWith rest "ENOENT " = true →
      handleOpen pid "open" args (some (-1)) rest = some [(pid, .check path false)]) ∧
    ("O_RDONLY" ∉ fl → handleOpen pid "open" args (some (-1)) rest = none) ∧
    (r > 0 → "O_RDONLY" ∈ flAt →
      handleOpen pid "openat" argsAt (some r) "" = some [(pid, .read pathAt)]) ∧
    (r > 0 → "O_RDONLY" ∉ flAt → ("O_WRONLY" ∈ flAt ∨ "O_RDWR" ∈ flAt) →
      handleOpen pid "openat" argsAt (some r) "" = some [(pid, .write pathAt)]) := by
  refine ⟨?_, ?_, ?_, ?_, ?_, ?_⟩
  · intro hr hin
    have : (-1 : Int) ≠ r := by omega
    simp [handleOpen, hp, List.contains, List.elem_iff, hin, this.symm, hr, hr.le]
  · intro hr hnin hw
    have : (-1 : Int) ≠ r := by omega
    simp [handleOpen, hp, List.contains, List.elem_iff, hnin, this.symm, hw, hr]
  · intro hin henoent
    simp [handleOpen, hp, List.contains, List.elem_iff, hin, henoent]
  · intro hnin
    simp [handleOpen, hp, List.contains, List.elem_iff, hnin]
  · intro hr hin
    have : (-1 : Int) ≠ r := by omega
    simp [handleOpen, hpAt, List.contains, List.elem_iff, hin, this.symm, hr, hr.le]
  · intro hr hnin hw
    have : (-1 : Int) ≠ r := by omega
    simp [handleOpen, hpAt, List.contains, List.elem_iff, hnin, this.symm, hw, hr]

theorem C5_witness :
    parseArgs "s,|*,n" "\"/a\", O_RDONLY|O_CLOEXEC" =
      .ok [Arg.str (some "/a"), Arg.flags ["O_RDONLY", "O_CLOEXEC"], Arg.omitted] ∧
    parseArgs "f,s,|*,n" "AT_FDCWD, \"/b\", O_WRONLY|O_CREAT, 0666" =
      .ok [Arg.fd ".", Arg.str (some "/b"), Arg.flags ["O_WRONLY", "O_CREAT"], Arg.int 438] ∧
    (((3 : Int) > 0 → "O_RDONLY" ∈ (["O_RDONLY", "O_CLOEXEC"] : List String) →
      handleOpen 5 "open" "\"/a\", O_RDONLY|O_CLOEXEC" (some 3) "" = some [(5, .read "/a")]) ∧
    ((3 : Int) > 0 → "O_RDONLY" ∉ (["O_RDONLY", "O_CLOEXEC"] : List String) →
      ("O_WRONLY" ∈ (["O_RDONLY", "O_CLOEXEC"] : List String) ∨
        "O_RDWR" ∈ (["O_RDONLY", "O_CLOEXEC"] : List String)) →
      handleOpen 5 "open" "\"/a\", O_RDONLY|O_CLOEXEC" (some 3) "" = some [(5, .write "/a")]) ∧
    ("O_RDONLY" ∈ (["O_RDONLY", "O_CLOEXEC"] : List String) →
      strStartsWith "ENOENT (x)" "ENOENT " = true →
      handleOpen 5 "open" "\"/a\", O_RDONLY|O_CLOEXEC" (some (-1)) "ENOENT (x)" =
        some [(5, .check "/a" false)]) ∧
    ("O_RDONLY" ∉ (["O_RDONLY", "O_CLOEXEC"] : List String) →
      handleOpen 5 "open" "\"/a\", O_RDONLY|O_CLOEXEC" (some (-1)) "ENOENT (x)" = none) ∧
    ((3 : Int) > 0 → "O_RDONLY" ∈ (["O_WRONLY", "O_CREAT"] : List String) →
      handleOpen 5 "openat" "AT_FDCWD, \"/b\", O_WRONLY|O_CREAT, 0666" (some 3) "" =
        some [(5, .read "/b")]) ∧
    ((3 : Int) > 0 → "O_RDONLY" ∉ (["O_WRONLY", "O_CREAT"] : List String) →
      ("O_WRONLY" ∈ (["O_WRONLY", "O_CREAT"] : List String) ∨
        "O_RDWR" ∈ (["O_WRONLY", "O_CREAT"] : List String)) →
      handleOpen 5 "openat" "AT_FDCWD, \"/b\", O_WRONLY|O_CREAT, 0666" (some 3) "" =
        some [(5, .write "/b")])) :=
  ⟨by decide, by decide,
    C5_theorem 5 "\"/a\", O_RDONLY|O_CLOEXEC" "AT_FDCWD, \"/b\", O_WRONLY|O_CREAT, 0666"
      "/a" "/b" ["O_RDONLY", "O_CLOEXEC"] ["O_WRONLY", "O_CREAT"] Arg.omitted (Arg.int 438)
      3 "ENOENT (x)" (by decide) (by decide)⟩

/-- Claim C6 counterexample: collapsing the leaf `tLeaf` (executable
`/bin/ls`, empty path sets) yields a record whose `paths_read` contains
the executable's entry, so it is not equal to the original in every
attribute. -/
theorem C6_counterexample :
    ((PT.collapsed (PT.mk dLeaf [])).map (fun c => c.data.paths_read)) ≠
      some dLeaf.paths_read := by
  simp only [PT.collapsed, PT.data, copyActivities, copyActivitiesList, dLeaf, exeLS, cwdW,
    PTData.init, PTData.read, PathArg.asStr, PathArg.asPath]
  decide

/-- Claim C6 (amended): collapsing a leaf whose executable is set returns
a record equal to the original in every attribute except `executable`
(re-joined against the cwd, a no-op for absolute executables) and
`paths_read` (which additionally contains the entry
`(str(executable), cwd / executable)`); a leaf with no executable makes
`collapsed()` raise a `TypeError` instead. -/
theorem C6_theorem (d : PTData) (e : PPath) (h : d.executable = some e) :
    PT.collapsed (PT.mk d []) = some (PT.mk { d with
      executable := some (d.cwd.join e)
      paths_read := insert (e.render, d.cwd.join e) d.paths_read } []) := by
  simp [PT.collapsed, PT.data, copyActivities, copyActivitiesList, PTData.init, h,
    PTData.read, PathArg.asStr, PathArg.asPath]

theorem C6_witness :
    dLeaf.executable = some exeLS ∧
    PT.collapsed (PT.mk dLeaf []) = some (PT.mk { dLeaf with
      executable := some (dLeaf.cwd.join exeLS)
      paths_read := insert (exeLS.render, dLeaf.cwd.join exeLS) dLeaf.paths_read } []) :=
  ⟨by decide, C6_theorem dLeaf exeLS (by decide)⟩

mutual

/-- What `copy_activities` computes: all three unions of the subtree plus
the executable entry of every visited node, folded into `ret` (whose cwd
never changes during the traversal). -/
theorem copyAct_spec (p : PT) (ret : PTData) (h : allExeB p = true) :
    copyActivities p ret = some { ret with
      paths_read := ret.paths_read ∪ (subtreeReads p ∪ allExeEntries ret.cwd p)
      paths_written := ret.paths_written ∪ subtreeWrites p
      paths_checked := ret.paths_checked ∪ subtreeChecks p } := by
  match p with
  | .mk d cs =>
    have hx : d.executable.isSome = true ∧ allExeBList cs = true := by
      have := h; simp [allExeB] at this; exact this
    obtain ⟨e, he⟩ := Option.isSome_iff_exists.mp hx.1
    rw [copyActivities, he]
    dsimp only
    rw [copyActList_spec cs _ hx.2]
    simp only [PTData.read, PathArg.asStr, PathArg.asPath, subtreeReads, subtreeWrites,
      subtreeChecks, allExeEntries, subAgg, subAggC, exeEntrySet, he, Option.some.injEq]
    simp [Finset.insert_eq, Finset.union_assoc, Finset.union_comm, Finset.union_left_comm,
      subtreeReads, subtreeWrites, subtreeChecks, allExeEntries]

theorem copyActList_spec (cs : List PT) (ret : PTData) (h : allExeBList cs = true) :
    copyActivitiesList cs ret = some { ret with
      paths_read := ret.paths_read ∪
        (subAggList (fun d => d.paths_read) cs ∪ subAggList (exeEntrySet ret.cwd) cs)
      paths_written := ret.paths_written ∪ subAggList (fun d => d.paths_written) cs
      paths_checked := ret.paths_checked ∪ subAggCList (fun d => d.paths_checked) cs } := by
  match cs with
  | [] => simp [copyActivitiesList, subAggList, subAggCList]
  | c :: rest =>
    have hx : allExeB c = true ∧ allExeBList rest = true := by
      have := h; simp [allExeBList] at this; exact this
    rw [copyActivitiesList, copyAct_spec c _ hx.1]
    dsimp only
    rw [copyActList_spec rest _ hx.2]
    simp only [subAggList, subAggCList, subtreeReads, subtreeWrites, subtreeChecks,
      allExeEntries, Option.some.injEq]
    simp [Finset.union_assoc, Finset.union_comm, Finset.union_left_comm]

end

/-- Claim C1 counterexample: for the leaf `tLeaf` the claimed value of
`collapsed().paths_read` (subtree union plus proper descendants'
executables only) is the empty set, but the code also inserts the node's
own executable entry. -/
theorem C1_counterexample :
    ((PT.collapsed tLeaf).map (fun c => c.data.paths_read)) ≠
      some (subtreeReads tLeaf ∪ properDescExeEntries tLeaf.data.cwd tLeaf) := by
  simp only [tLeaf, PT.collapsed, PT.data, PT.children, copyActivities, copyActivitiesList,
    subtreeReads, subAgg, subAggList, properDescExeEntries, exeEntrySet, dLeaf, exeLS, cwdW,
    PTData.init, PTData.read, PathArg.asStr, PathArg.asPath]
  decide

/-- Claim C1 (amended): for every node all of whose subtree records have
their executable set, `collapsed()` succeeds and `paths_read` is the union
of `paths_read` over the subtree plus an executable entry for every
subtree node — the node itself included, not just proper descendants —
while `paths_written` and `paths_checked` are exactly the subtree unions,
deduplicated as sets of Path pairs. -/
theorem C1_theorem (p : PT) (h : allExeB p = true) :
    ∃ dd, PT.collapsed p = some (PT.mk dd []) ∧
      dd.paths_read = subtreeReads p ∪ allExeEntries p.data.cwd p ∧
      dd.paths_written = subtreeWrites p ∧
      dd.paths_checked = subtreeChecks p := by
  unfold PT.collapsed
  dsimp only
  rw [copyAct_spec p _ h]
  refine ⟨_, rfl, ?_, ?_, ?_⟩ <;> simp [PTData.init]

theorem C1_witness :
    allExeB tTree = true ∧
    (∃ dd, PT.collapsed tTree = some (PT.mk dd []) ∧
      dd.paths_read = subtreeReads tTree ∪ allExeEntries tTree.data.cwd tTree ∧
      dd.paths_written = subtreeWrites tTree ∧
      dd.paths_checked = subtreeChecks tTree) :=
  ⟨by simp [tTree, allExeB, allExeBList, dLeaf, dChild],
    C1_theorem tTree (by simp [tTree, allExeB, allExeBList, dLeaf, dChild])⟩

theorem listUpd_getElem_ne (l : List Node) (k i : Nat) (f : Node → Node) (h : i ≠ k) :
    (listUpd l k f)[i]? = l[i]? := by
  induction l generalizing k i with
  | nil => simp [listUpd]
  | cons x xs ih =>
    cases k with
    | zero =>
      cases i with
      | zero => exact absurd rfl h
      | succ j => simp [listUpd]
    | succ k' =>
      cases i with
      | zero => simp [listUpd]
      | succ j => simpa [listUpd] using ih k' j (fun hh => h (by omega))

theorem foldlM_copy_frame (retAddr : Nat) (f : List Node → Nat → Option (List Node))
    (hf : ∀ s c o, f s c = some o → ∀ i, i ≠ retAddr → o[i]? = s[i]?) :
    ∀ (l : List Nat) (st out : List Node), l.foldlM f st = some out →
      ∀ i, i ≠ retAddr → out[i]? = st[i]? := by
  intro l
  induction l with
  | nil =>
    intro st out h i hi
    simp only [List.foldlM_nil, Option.pure_def, Option.some.injEq] at h
    rw [h]
  | cons c rest ih =>
    intro st out h i hi
    simp only [List.foldlM_cons] at h
    cases hs : f st c with
    | none => rw [hs] at h; simp at h
    | some s =>
      rw [hs] at h
      simp only [Option.bind_eq_bind, Option.some_bind] at h
      rw [ih s out h i hi, hf st c s hs i hi]

/-- Writes of `copy_activities` hit only the fresh record's address. -/
theorem copyActS_frame : ∀ (fuel : Nat) (store : List Node) (retAddr a : Nat)
    (out : List Node), copyActS fuel store retAddr a = some out →
    ∀ i, i ≠ retAddr → out[i]? = store[i]? := by
  intro fuel
  induction fuel with
  | zero => intro store retAddr a out h; simp [copyActS] at h
  | succ fuel ih =>
    intro store retAddr a out h i hi
    rw [copyActS] at h
    cases hpn : store[a]? with
    | none => rw [hpn] at h; simp at h
    | some pn =>
      rw [hpn] at h
      dsimp only at h
      cases he : pn.data.executable with
      | none => rw [he] at h; simp at h
      | some e =>
        rw [he] at h
        dsimp only at h
        rw [foldlM_copy_frame retAddr _ (fun s c o hso => ih s retAddr c o hso)
          pn.children _ out h i hi]
        rw [listUpd_getElem_ne _ _ _ _ hi, listUpd_getElem_ne _ _ _ _ hi]

/-- Claim C10: `collapsed()` leaves the receiver and every record of the
store unchanged — the returned record is a fresh one appended at the end
of the store, and every pre-existing address reads back exactly as
before. -/
theorem C10_theorem (fuel : Nat) (store : List Node) (a : Nat) (store2 : List Node)
    (r : Nat) (h : collapsedS fuel store a = some (store2, r)) :
    r = store.length ∧ ∀ i, i < store.length → store2[i]? = store[i]? := by
  unfold collapsedS at h
  cases hn : store[a]? with
  | none => rw [hn] at h; simp at h
  | some n =>
    rw [hn] at h
    dsimp only at h
    cases hc : copyActS fuel (store ++ [⟨PTData.init n.data.pid n.data.ppid n.data.cwd
        n.data.executable n.data.argv n.data.env n.data.exit_code, []⟩]) store.length a with
    | none => rw [hc] at h; simp at h
    | some s2 =>
      rw [hc] at h
      simp only [Option.some.injEq, Prod.mk.injEq] at h
      obtain ⟨h1, h2⟩ := h
      subst h1 h2
      refine ⟨rfl, fun i hi => ?_⟩
      rw [copyActS_frame fuel _ store.length a s2 hc i (by omega)]
      exact List.getElem?_append_left hi

theorem C10_witness :
    collapsedS 1 [Node.mk dLeaf []] 0 =
      some ([Node.mk dLeaf [], Node.mk { dLeaf with paths_read := {("/bin/ls", exeLS)} } []], 1) ∧
    (1 = [Node.mk dLeaf []].length ∧ ∀ i, i < [Node.mk dLeaf []].length →
      ([Node.mk dLeaf [], Node.mk { dLeaf with paths_read := {("/bin/ls", exeLS)} } []] :
        List Node)[i]? = [Node.mk dLeaf []][i]?) :=
  ⟨by decide, C10_theorem 1 [Node.mk dLeaf []] 0 _ 1 (by decide)⟩

theorem lookupA_append_self {α : Type} (l : List (Nat × α)) (k : Nat) (v : α)
    (h : lookupA l k = none) : lookupA (l ++ [(k, v)]) k = some v := by
  induction l with
  | nil => simp [lookupA]
  | cons x xs ih =>
    obtain ⟨a, b⟩ := x
    by_cases hx : a = k
    · simp [lookupA, hx] at h
    · simp only [lookupA, List.cons_append, hx, if_false] at h ⊢
      exact ih h

theorem delA_append {α : Type} (l : List (Nat × α)) (k : Nat) (x : α) :
    delA (l ++ [(k, x)]) k = delA l k := by
  simp [delA, List.filter_append]

theorem delA_of_lookupA_none {α : Type} (l : List (Nat × α)) (k : Nat)
    (h : lookupA l k = none) : delA l k = l := by
  induction l with
  | nil => rfl
  | cons x xs ih =>
    obtain ⟨a, b⟩ := x
    by_cases hx : a = k
    · simp [lookupA, hx] at h
    · simp only [lookupA, hx, if_false] at h
      show List.filter (fun kv => kv.1 != k) ((a, b) :: xs) = (a, b) :: xs
      rw [List.filter_cons_of_pos (by simpa using hx)]
      rw [show List.filter (fun kv => kv.1 != k) xs = xs from ih h]

theorem pendAdd_absent (l : List (Nat × List Ev)) (k : Nat) (e : Ev)
    (h : lookupA l k = none) : pendAdd l k e = l ++ [(k, [e])] := by
  induction l with
  | nil => rfl
  | cons x xs ih =>
    obtain ⟨a, b⟩ := x
    by_cases hx : a = k
    · simp [lookupA, hx] at h
    · simp only [lookupA, hx, if_false] at h
      simp [pendAdd, hx, ih h]

theorem pendAdd_present_end (l : List (Nat × List Ev)) (k : Nat) (evs : List Ev) (e : Ev)
    (h : lookupA l k = none) :
    pendAdd (l ++ [(k, evs)]) k e = l ++ [(k, evs ++ [e])] := by
  induction l with
  | nil => simp [pendAdd]
  | cons x xs ih =>
    obtain ⟨a, b⟩ := x
    by_cases hx : a = k
    · simp [lookupA, hx] at h
    · simp only [lookupA, hx, if_false] at h
      simp [pendAdd, hx, ih h]

theorem listUpd_length (l : List Node) (k : Nat) (f : Node → Node) :
    (listUpd l k f).length = l.length := by
  induction l generalizing k with
  | nil => rfl
  | cons x xs ih => cases k <;> simp [listUpd, ih]

theorem listUpd_fix (l : List Node) (a : Nat) (f : Node → Node) (x : Node)
    (hx : l[a]? = some x) (hf : f x = x) : listUpd l a f = l := by
  induction l generalizing a with
  | nil => simp at hx
  | cons y ys ih =>
    cases a with
    | zero => simp at hx; simp [listUpd, hx ▸ hf]
    | succ a' => simp at hx; simp [listUpd, ih a' hx]

theorem feStep_buffer (st : FEState) (cpid : Nat) (e : Ev)
    (hr : lookupA st.running cpid = none) :
    feStep st (cpid, e) = some { st with pending := pendAdd st.pending cpid e } := by
  simp [feStep, hr]

/-- Events of a not-yet-running pid are buffered, in order, into
`pending`. -/
theorem buffer_phase (cpid : Nat) : ∀ (evs : List Ev) (st : FEState),
    lookupA st.running cpid = none →
    (evs.map (fun e => (cpid, e))).foldlM feStep st =
      some { st with pending := evs.foldl (fun p e => pendAdd p cpid e) st.pending } := by
  intro evs
  induction evs with
  | nil => intro st _; simp [List.foldlM]
  | cons e rest ih =>
    intro st hr
    simp only [List.map_cons, List.foldlM_cons, feStep_buffer st cpid e hr,
      Option.bind_eq_bind, Option.some_bind]
    rw [ih { st with pending := pendAdd st.pending cpid e } hr]
    rfl

theorem pend_fold (base : List (Nat × List Ev)) (cpid : Nat)
    (h : lookupA base cpid = none) : ∀ (evs acc : List Ev),
    evs.foldl (fun p e => pendAdd p cpid e) (base ++ [(cpid, acc)]) =
      base ++ [(cpid, acc ++ evs)] := by
  intro evs
  induction evs with
  | nil => intro acc; simp
  | cons e rest ih =>
    intro acc
    simp only [List.foldl_cons, pendAdd_present_end base cpid acc e h]
    rw [ih (acc ++ [e])]
    simp

theorem pend_fold_start (base : List (Nat × List Ev)) (cpid : Nat) (evs : List Ev)
    (h : lookupA base cpid = none) (hne : evs ≠ []) :
    evs.foldl (fun p e => pendAdd p cpid e) base = base ++ [(cpid, evs)] := by
  cases evs with
  | nil => exact absurd rfl hne
  | cons e rest =>
    simp only [List.foldl_cons, pendAdd_absent base cpid e h]
    rw [pend_fold base cpid h rest [e]]
    simp

/-- The `fork` bookkeeping of one `from_events` iteration: the per-record
dispatch leaves the parent's data unchanged, a child record is created
with the parent's cwd and appended to the store and to the parent's
children, the child's pending events (if any) are drained into it, and
the child becomes running. -/
theorem feStep_fork (st : FEState) (cpid ppid a : Nat) (node : Node) (cd : PTData)
    (hppid : lookupA st.running ppid = some a)
    (hnode : st.store[a]? = some node)
    (hr : lookupA st.running cpid = none)
    (hdrain : (match lookupA st.pending cpid with
               | none => some (PTData.init (some cpid) (some ppid) node.data.cwd
                   none none none none)
               | some evs => evs.foldlM PTData.handle
                   (PTData.init (some cpid) (some ppid) node.data.cwd
                     none none none none)) = some cd) :
    feStep st (ppid, Ev.fork cpid) =
      some { store := listUpd st.store a
               (fun n => { n with children := n.children ++ [st.store.length] }) ++ [⟨cd, []⟩],
             running := st.running ++ [(cpid, st.store.length)],
             pending := delA st.pending cpid } := by
  unfold feStep
  dsimp only
  rw [hppid]
  dsimp only
  rw [hnode]
  dsimp only [PTData.handle]
  rw [hr]
  dsimp only [Option.isSome]
  simp only [Bool.false_eq_true, if_false]
  rw [listUpd_fix st.store a _ node hnode rfl]
  rw [hdrain]

/-- Claim C3: events for a child pid arriving before the parent's
`fork(child_pid)` are buffered; when the fork event is dispatched, the
child record is created under the parent (ppid set to the parent's pid,
address appended to the parent's `children`), and the buffered events are
applied to the child record in their original stream order (`hfold` is
that in-order fold). -/
theorem C3_theorem (st : FEState) (cpid ppid a : Nat) (node : Node)
    (childEvs : List Ev) (cd : PTData)
    (hr : lookupA st.running cpid = none)
    (hp : lookupA st.pending cpid = none)
    (hppid : lookupA st.running ppid = some a)
    (hnode : st.store[a]? = some node)
    (hfold : childEvs.foldlM PTData.handle
      (PTData.init (some cpid) (some ppid) node.data.cwd none none none none) = some cd) :
    ((childEvs.map (fun e => (cpid, e))) ++ [(ppid, Ev.fork cpid)]).foldlM feStep st =
      some { store := listUpd st.store a
               (fun n => { n with children := n.children ++ [st.store.length] }) ++ [⟨cd, []⟩],
             running := st.running ++ [(cpid, st.store.length)],
             pending := st.pending } := by
  rw [List.foldlM_append, buffer_phase cpid childEvs st hr]
  simp only [Option.bind_eq_bind, Option.some_bind]
  rcases eq_or_ne childEvs [] with hc | hc
  · subst hc
    simp only [List.foldl_nil]
    rw [show (List.foldlM feStep { st with pending := st.pending } [(ppid, Ev.fork cpid)]) =
        (List.foldlM feStep st [(ppid, Ev.fork cpid)]) from rfl]
    simp only [List.foldlM_cons, List.foldlM_nil]
    rw [feStep_fork st cpid ppid a node cd hppid hnode hr (by rw [hp]; simpa using hfold)]
    simp only [Option.bind_eq_bind, Option.some_bind, Option.pure_def]
    rw [delA_of_lookupA_none st.pending cpid hp]
  · rw [pend_fold_start st.pending cpid childEvs hp hc]
    simp only [List.foldlM_cons, List.foldlM_nil]
    have hdrain : (match lookupA (st.pending ++ [(cpid, childEvs)]) cpid with
        | none => some (PTData.init (some cpid) (some ppid) node.data.cwd none none none none)
        | some evs => evs.foldlM PTData.handle
            (PTData.init (some cpid) (some ppid) node.data.cwd none none none none)) = some cd := by
      rw [lookupA_append_self st.pending cpid childEvs hp]
      exact hfold
    rw [feStep_fork { st with pending := st.pending ++ [(cpid, childEvs)] } cpid ppid a node cd
      hppid hnode hr hdrain]
    simp only [Option.bind_eq_bind, Option.some_bind, Option.pure_def]
    rw [delA_append st.pending cpid childEvs, delA_of_lookupA_none st.pending cpid hp]

theorem C3_witness :
    lookupA stC3.running 2 = none ∧
    lookupA stC3.pending 2 = none ∧
    lookupA stC3.running 1 = some 0 ∧
    stC3.store[0]? = some ndRoot ∧
    [Ev.read "x"].foldlM PTData.handle
      (PTData.init (some 2) (some 1) ndRoot.data.cwd none none none none) = some cdC3 ∧
    (([Ev.read "x"].map (fun e => (2, e))) ++ [(1, Ev.fork 2)]).foldlM feStep stC3 =
      some { store := listUpd stC3.store 0
               (fun n => { n with children := n.children ++ [stC3.store.length] }) ++ [⟨cdC3, []⟩],
             running := stC3.running ++ [(2, stC3.store.length)],
             pending := stC3.pending } :=
  ⟨by decide, by decide, by decide, by decide, by decide,
    C3_theorem stC3 2 1 0 ndRoot [Ev.read "x"] cdC3
      (by decide) (by decide) (by decide) (by decide) (by decide)⟩

theorem takeWhile_append_all (p : Char → Bool) (a b : List Char)
    (hall : ∀ c ∈ a, p c = true) : (a ++ b).takeWhile p = a ++ b.takeWhile p := by
  induction a with
  | nil => simp
  | cons x xs ih =>
    rw [List.cons_append, List.takeWhile_cons, hall x (List.mem_cons_self x xs)]
    simp only [if_true]
    rw [ih (fun c hc => hall c (List.mem_cons_of_mem x hc))]
    rfl

theorem takeWhile1_exact (p : Char → Bool) (a b : List Char) (ha : a ≠ [])
    (hall : ∀ c ∈ a, p c = true) (hb : b.takeWhile p = []) :
    takeWhile1 p (a ++ b) = some (a, b) := by
  unfold takeWhile1
  rw [takeWhile_append_all p a b hall, hb, List.append_nil]
  cases a with
  | nil => exact absurd rfl ha
  | cons x xs =>
    dsimp only
    rw [List.drop_left]

theorem isWordC_not_space (c : Char) (h : isWordC c = true) : (c == ' ') = false := by
  cases hc : c == ' '
  · rfl
  · rw [show c = ' ' from by simpa using hc] at h
    simp [isWordC] at h

theorem dropLit_exact (lit rest : List Char) : dropLit lit (lit ++ rest) = some rest := by
  unfold dropLit
  rw [show lit.isPrefixOf (lit ++ rest) = true from by
    rw [List.isPrefixOf_iff_prefix]; exact List.prefix_append lit rest]
  simp [List.drop_left]

theorem spaces_head_takeWhile (p : Char → Bool) (sp : List Char) (b : List Char)
    (hsp : sp ≠ []) (hall : ∀ c ∈ sp, c = ' ') (h' : p ' ' = false) :
    (sp ++ b).takeWhile p = [] := by
  cases sp with
  | nil => exact absurd rfl hsp
  | cons s srest =>
    rw [show s = ' ' from hall s (List.mem_cons_self s srest)]
    simp [List.takeWhile_cons, h']

/-- `matchFull` on a line of the complete-syscall shape: the captured
groups are the pid, the name, and the `splitArgs` decomposition of the
text after `(`. -/
theorem matchFull_structured (dg sp w T : List Char)
    (hdg : dg ≠ []) (hdgall : ∀ c ∈ dg, c.isDigit = true)
    (hsp : sp ≠ []) (hspall : ∀ c ∈ sp, c = ' ')
    (hw : w ≠ []) (hwall : ∀ c ∈ w, isWordC c = true) :
    matchFull (dg ++ (sp ++ (w ++ ('(' :: T)))) =
      (splitArgs T).map (fun art =>
        (natOfDigits dg, String.mk w, String.mk art.1, art.2.1, String.mk art.2.2)) := by
  unfold matchFull
  rw [takeWhile1_exact Char.isDigit dg (sp ++ (w ++ ('(' :: T))) hdg hdgall
    (spaces_head_takeWhile _ sp _ hsp hspall (by decide))]
  simp only [Option.bind_eq_bind, Option.some_bind]
  rw [takeWhile1_exact (fun c => c == ' ') sp (w ++ ('(' :: T)) hsp
    (fun c hc => by rw [hspall c hc]; rfl)
    (by cases w with
      | nil => exact absurd rfl hw
      | cons x xs =>
        simp [List.takeWhile_cons, isWordC_not_space x (hwall x (List.mem_cons_self x xs))])]
  simp only [Option.bind_eq_bind, Option.some_bind]
  rw [takeWhile1_exact isWordC w ('(' :: T) hw hwall (by simp [List.takeWhile_cons, isWordC])]
  simp only [Option.bind_eq_bind, Option.some_bind]
  rw [show expectChar '(' ('(' :: T) = some T from by simp [expectChar]]
  simp only [Option.bind_eq_bind, Option.some_bind]
  cases splitArgs T with
  | none => rfl
  | some art => rfl

/-- `matchUnfinished` on a line of the unfinished shape captures exactly
the text between `(` and the trailing `" <unfinished ...>"`. -/
theorem matchUnfinished_structured (dg sp w P : List Char)
    (hdg : dg ≠ []) (hdgall : ∀ c ∈ dg, c.isDigit = true)
    (hsp : sp ≠ []) (hspall : ∀ c ∈ sp, c = ' ')
    (hw : w ≠ []) (hwall : ∀ c ∈ w, isWordC c = true) :
    matchUnfinished (dg ++ (sp ++ (w ++ ('(' :: (P ++ unfinishedSuffix))))) =
      some (natOfDigits dg, String.mk w, String.mk P) := by
  unfold matchUnfinished
  rw [takeWhile1_exact Char.isDigit dg (sp ++ (w ++ ('(' :: (P ++ unfinishedSuffix)))) hdg hdgall
    (spaces_head_takeWhile _ sp _ hsp hspall (by decide))]
  simp only [Option.bind_eq_bind, Option.some_bind]
  rw [takeWhile1_exact (fun c => c == ' ') sp (w ++ ('(' :: (P ++ unfinishedSuffix))) hsp
    (fun c hc => by rw [hspall c hc]; rfl)
    (by cases w with
      | nil => exact absurd rfl hw
      | cons x xs =>
        simp [List.takeWhile_cons, isWordC_not_space x (hwall x (List.mem_cons_self x xs))])]
  simp only [Option.bind_eq_bind, Option.some_bind]
  rw [takeWhile1_exact isWordC w ('(' :: (P ++ unfinishedSuffix)) hw hwall
    (by simp [List.takeWhile_cons, isWordC])]
  simp only [Option.bind_eq_bind, Option.some_bind]
  rw [show expectChar '(' ('(' :: (P ++ unfinishedSuffix)) = some (P ++ unfinishedSuffix) from by
    simp [expectChar]]
  simp only [Option.bind_eq_bind, Option.some_bind]
  rw [show unfinishedSuffix.isSuffixOf (P ++ unfinishedSuffix) = true from by
    rw [List.isSuffixOf_iff_suffix]; exact List.suffix_append P unfinishedSuffix]
  simp only [if_true, List.length_append, Nat.add_sub_cancel, List.take_left]

/-- `matchResumed` on a line of the resumed shape. -/
theorem matchResumed_structured (dg sp w R : List Char)
    (hdg : dg ≠ []) (hdgall : ∀ c ∈ dg, c.isDigit = true)
    (hsp : sp ≠ []) (hspall : ∀ c ∈ sp, c = ' ')
    (hw : w ≠ []) (hwall : ∀ c ∈ w, isWordC c = true) :
    matchResumed (dg ++ (sp ++ ("<... ".data ++ (w ++ (" resumed> ".data ++ R))))) =
      some (natOfDigits dg, String.mk w, String.mk R) := by
  unfold matchResumed
  rw [takeWhile1_exact Char.isDigit dg
    (sp ++ ("<... ".data ++ (w ++ (" resumed> ".data ++ R)))) hdg hdgall
    (spaces_head_takeWhile _ sp _ hsp hspall (by decide))]
  simp only [Option.bind_eq_bind, Option.some_bind]
  rw [takeWhile1_exact (fun c => c == ' ') sp ("<... ".data ++ (w ++ (" resumed> ".data ++ R))) hsp
    (fun c hc => by rw [hspall c hc]; rfl) (by simp [List.takeWhile_cons])]
  simp only [Option.bind_eq_bind, Option.some_bind]
  rw [dropLit_exact "<... ".data (w ++ (" resumed> ".data ++ R))]
  simp only [Option.bind_eq_bind, Option.some_bind]
  rw [takeWhile1_exact isWordC w (" resumed> ".data ++ R) hw hwall
    (by simp [List.takeWhile_cons, isWordC])]
  simp only [Option.bind_eq_bind, Option.some_bind]
  rw [dropLit_exact " resumed> ".data R]
  rfl

/-- The complete-syscall pattern cannot match a resumed-shaped line: the
`(\w+)` group fails at the `<`. -/
theorem matchFull_resumed_none (dg sp w R : List Char)
    (hdg : dg ≠ []) (hdgall : ∀ c ∈ dg, c.isDigit = true)
    (hsp : sp ≠ []) (hspall : ∀ c ∈ sp, c = ' ') :
    matchFull (dg ++ (sp ++ ("<... ".data ++ (w ++ (" resumed> ".data ++ R))))) = none := by
  unfold matchFull
  rw [takeWhile1_exact Char.isDigit dg
    (sp ++ ("<... ".data ++ (w ++ (" resumed> ".data ++ R)))) hdg hdgall
    (spaces_head_takeWhile _ sp _ hsp hspall (by decide))]
  simp only [Option.bind_eq_bind, Option.some_bind]
  rw [takeWhile1_exact (fun c => c == ' ') sp ("<... ".data ++ (w ++ (" resumed> ".data ++ R))) hsp
    (fun c hc => by rw [hspall c hc]; rfl) (by simp [List.takeWhile_cons])]
  simp only [Option.bind_eq_bind, Option.some_bind]
  rw [show takeWhile1 isWordC ("<... ".data ++ (w ++ (" resumed> ".data ++ R))) = none from by
    simp [takeWhile1, List.takeWhile_cons, isWordC]]
  rfl

/-- Nor can the unfinished pattern. -/
theorem matchUnfinished_resumed_none (dg sp w R : List Char)
    (hdg : dg ≠ []) (hdgall : ∀ c ∈ dg, c.isDigit = true)
    (hsp : sp ≠ []) (hspall : ∀ c ∈ sp, c = ' ') :
    matchUnfinished (dg ++ (sp ++ ("<... ".data ++ (w ++ (" resumed> ".data ++ R))))) = none := by
  unfold matchUnfinished
  rw [takeWhile1_exact Char.isDigit dg
    (sp ++ ("<... ".data ++ (w ++ (" resumed> ".data ++ R)))) hdg hdgall
    (spaces_head_takeWhile _ sp _ hsp hspall (by decide))]
  simp only [Option.bind_eq_bind, Option.some_bind]
  rw [takeWhile1_exact (fun c => c == ' ') sp ("<... ".data ++ (w ++ (" resumed> ".data ++ R))) hsp
    (fun c hc => by rw [hspall c hc]; rfl) (by simp [List.takeWhile_cons])]
  simp only [Option.bind_eq_bind, Option.some_bind]
  rw [show takeWhile1 isWordC ("<... ".data ++ (w ++ (" resumed> ".data ++ R))) = none from by
    simp [takeWhile1, List.takeWhile_cons, isWordC]]
  rfl

theorem strData_append (s t : String) : (s ++ t).data = s.data ++ t.data := rfl

/-- Claim C4: a complete syscall line split into an unfinished half and a
resumed half for the same PID produces exactly the same parser result
(same events, same final state — the pending entry is deleted, returning
the per-PID stitching state to Idle) as the unsplit line.  The halves are
classified by the same ordered pattern list (`hU` says the unfinished
half does not accidentally match the complete-syscall pattern), and the
resumed handler's reconstructed line re-matches the complete-syscall
pattern with the same groups, because the text after `NAME(` is the
concatenation `P ++ R` in both cases. -/
theorem C4_theorem (st : ParserState) (dg sp1 sp2 sp3 w P R a t : List Char) (r : Option Int)
    (hdg : dg ≠ []) (hdgall : ∀ c ∈ dg, c.isDigit = true)
    (hsp1 : sp1 ≠ []) (hsp1all : ∀ c ∈ sp1, c = ' ')
    (hsp2 : sp2 ≠ []) (hsp2all : ∀ c ∈ sp2, c = ' ')
    (hsp3 : sp3 ≠ []) (hsp3all : ∀ c ∈ sp3, c = ' ')
    (hw : w ≠ []) (hwall : ∀ c ∈ w, isWordC c = true)
    (hsplit : splitArgs (P ++ R) = some (a, r, t))
    (hU : matchFull (dg ++ (sp2 ++ (w ++ ('(' :: (P ++ unfinishedSuffix))))) = none)
    (hrd : ∀ c ∈ (Nat.repr (natOfDigits dg)).data, c.isDigit = true)
    (hrne : (Nat.repr (natOfDigits dg)).data ≠ [])
    (hrval : natOfDigits (Nat.repr (natOfDigits dg)).data = natOfDigits dg)
    (hpend : lookupA st.pending (natOfDigits dg) = none) :
    parseLines st [dg ++ (sp2 ++ (w ++ ('(' :: (P ++ unfinishedSuffix)))),
      dg ++ (sp3 ++ ("<... ".data ++ (w ++ (" resumed> ".data ++ R))))] =
    parseLines st [dg ++ (sp1 ++ (w ++ ('(' :: (P ++ R))))] := by
  have hLc : classify (dg ++ (sp1 ++ (w ++ ('(' :: (P ++ R))))) =
      Classified.full (natOfDigits dg) (String.mk w) (String.mk a) r (String.mk t) := by
    unfold classify
    rw [matchFull_structured dg sp1 w (P ++ R) hdg hdgall hsp1 hsp1all hw hwall, hsplit]
    rfl
  have hUc : classify (dg ++ (sp2 ++ (w ++ ('(' :: (P ++ unfinishedSuffix))))) =
      Classified.unfinished (natOfDigits dg) (String.mk w) (String.mk P) := by
    unfold classify
    rw [hU, matchUnfinished_structured dg sp2 w P hdg hdgall hsp2 hsp2all hw hwall]
  have hRc : classify (dg ++ (sp3 ++ ("<... ".data ++ (w ++ (" resumed> ".data ++ R))))) =
      Classified.resumed (natOfDigits dg) (String.mk w) (String.mk R) := by
    unfold classify
    rw [matchFull_resumed_none dg sp3 w R hdg hdgall hsp3 hsp3all,
      matchUnfinished_resumed_none dg sp3 w R hdg hdgall hsp3 hsp3all,
      matchResumed_structured dg sp3 w R hdg hdgall hsp3 hsp3all hw hwall]
  have hrecon : matchFull ((Nat.repr (natOfDigits dg) ++ " " ++ String.mk w ++ "(" ++
      String.mk P ++ String.mk R).data) =
      some (natOfDigits dg, String.mk w, String.mk a, r, String.mk t) := by
    show matchFull ((((((Nat.repr (natOfDigits dg)).data ++ [' ']) ++ w) ++ ['(']) ++ P) ++ R) = _
    rw [show (((((Nat.repr (natOfDigits dg)).data ++ [' ']) ++ w) ++ ['(']) ++ P) ++ R =
        (Nat.repr (natOfDigits dg)).data ++ ([' '] ++ (w ++ ('(' :: (P ++ R)))) from by
      simp [List.append_assoc]]
    rw [matchFull_structured _ [' '] w (P ++ R) hrne hrd (by simp)
      (by intro c hc; simpa using hc) hw hwall]
    rw [hsplit, hrval]
    rfl
  have hRHS : parseLines st [dg ++ (sp1 ++ (w ++ ('(' :: (P ++ R))))] =
      (match handleSyscall (natOfDigits dg) (String.mk w) (String.mk a) r
          (pyStrip (String.mk t)) with
       | none => none
       | some evs => some (st, evs ++ [])) := by
    simp only [parseLines, hLc, processClassified]
    cases handleSyscall (natOfDigits dg) (String.mk w) (String.mk a) r
      (pyStrip (String.mk t)) with
    | none => rfl
    | some evs => rfl
  have hLHS : parseLines st [dg ++ (sp2 ++ (w ++ ('(' :: (P ++ unfinishedSuffix)))),
      dg ++ (sp3 ++ ("<... ".data ++ (w ++ (" resumed> ".data ++ R))))] =
      (match handleSyscall (natOfDigits dg) (String.mk w) (String.mk a) r
          (pyStrip (String.mk t)) with
       | none => none
       | some evs => some (st, evs ++ [])) := by
    simp only [parseLines, hUc, hRc, processClassified, hpend]
    rw [lookupA_append_self st.pending (natOfDigits dg) (String.mk w, String.mk P) hpend]
    dsimp only
    rw [if_pos rfl]
    rw [hrecon]
    dsimp only
    rw [delA_append st.pending (natOfDigits dg) (String.mk w, String.mk P),
      delA_of_lookupA_none st.pending (natOfDigits dg) hpend]
    cases handleSyscall (natOfDigits dg) (String.mk w) (String.mk a) r
      (pyStrip (String.mk t)) with
    | none => rfl
    | some evs => rfl
  rw [hLHS, hRHS]

theorem C4_witness :
    ("7".data ≠ ([] : List Char)) ∧ (∀ c ∈ "7".data, c.isDigit = true) ∧
    (([' '] : List Char) ≠ []) ∧ (∀ c ∈ ([' '] : List Char), c = ' ') ∧
    ("chdir".data ≠ ([] : List Char)) ∧ (∀ c ∈ "chdir".data, isWordC c = true) ∧
    splitArgs ("\"/tm".data ++ "p\") = 0".data) =
      some ("\"/tmp\"".data, some 0, ("".data : List Char)) ∧
    matchFull ("7".data ++ ([' '] ++ ("chdir".data ++
      ('(' :: ("\"/tm".data ++ unfinishedSuffix))))) = none ∧
    (∀ c ∈ (Nat.repr (natOfDigits "7".data)).data, c.isDigit = true) ∧
    ((Nat.repr (natOfDigits "7".data)).data ≠ []) ∧
    (natOfDigits (Nat.repr (natOfDigits "7".data)).data = natOfDigits "7".data) ∧
    lookupA (ParserState.mk []).pending (natOfDigits "7".data) = none ∧
    parseLines (ParserState.mk [])
      ["7".data ++ ([' '] ++ ("chdir".data ++ ('(' :: ("\"/tm".data ++ unfinishedSuffix)))),
       "7".data ++ ([' '] ++ ("<... ".data ++ ("chdir".data ++
         (" resumed> ".data ++ "p\") = 0".data))))] =
    parseLines (ParserState.mk [])
      ["7".data ++ ([' '] ++ ("chdir".data ++ ('(' :: ("\"/tm".data ++ "p\") = 0".data))))] :=
  ⟨by decide, by decide, by decide, by decide, by decide, by decide, by decide, by decide,
    by decide, by decide, by decide, by decide,
    C4_theorem (ParserState.mk []) "7".data [' '] [' '] [' '] "chdir".data "\"/tm".data
      "p\") = 0".data "\"/tmp\"".data "".data (some 0)
      (by decide) (by decide) (by decide) (by decide) (by decide) (by decide) (by decide)
      (by decide) (by decide) (by decide) (by decide) (by decide) (by decide) (by decide)
      (by decide) (by decide)⟩
